import Mathlib

/-!
Verification of the core metaheuristic VRP solver
(`src/solver/task2_vrp_discharge_solver.py`, class `VRPSolver`).

Shallow embedding conventions:
* Python `float`/`int` quantities (distances, times, battery, cost) are
  modelled as `ℚ`; integer quantities (demand, capacity) as `Int`.
* The distance matrix built by `_calculate_distance_matrix` (Euclidean
  distances, zero diagonal) is modelled as an abstract matrix
  `dist : Nat → Nat → ℚ`; every function under verification only reads
  the matrix, never recomputes it.
* Customer ids are 1-based (`self.customers[customer_idx - 1]` in the
  source); index 0 is the depot.  The Python indexing expression is
  modelled with `List.getD` (routes in scope always carry ids `1..N`).
* `random.choice` / `random.sample` / `random.randint` draws are
  modelled by explicit choice parameters; a draw `choice % n` ranges
  over exactly the values the Python call can produce.  `random.choice`
  applied to an empty list raises `IndexError`; this is modelled by an
  `Option` result being `none`.
-/

namespace EVR

/-- Customer record (`Customer.__init__`); coordinates are dropped
because every function under verification reads only the distance
matrix, never coordinates. -/
structure Customer where
  id : Nat
  demand : Int
  ready_time : ℚ
  due_time : ℚ
  service_time : ℚ
deriving Repr, DecidableEq, Inhabited

/-- Vehicle record (`Vehicle.__init__`); the mutable simulation fields
(`current_load`, ...) are never read by the solver and are omitted. -/
structure Vehicle where
  capacity : Int
  battery_capacity : ℚ
  consumption_rate : ℚ
deriving Repr, DecidableEq, Inhabited

/-- The read-only data of a `VRPSolver` instance: customer list, depot
distance matrix, vehicle fleet, and the discharge configuration
(`enable_discharge`, `peak_hours`). -/
structure Solver where
  customers : List Customer
  vehicles : List Vehicle
  dist : Nat → Nat → ℚ
  enable_discharge : Bool
  peak_start : ℚ
  peak_end : ℚ

/-- Solver parameter `self.population_size = 100`. -/
def population_size : Nat := 100

/-- Solver parameter `self.elite_size = 20`. -/
def elite_size : Nat := 20

/-- Solver parameter `self.no_improvement_limit = 300`. -/
def no_improvement_limit : Nat := 300

/-- The customer record looked up by `self.customers[customer_idx - 1]`. -/
def Solver.customerAt (s : Solver) (c : Nat) : Customer :=
  s.customers.getD (c - 1) default

/-- Number of customers `N`; customer ids are `1..N`. -/
def Solver.N (s : Solver) : Nat := s.customers.length

/-- The list of all customer ids `1..N`
(Python `range(1, len(self.customers) + 1)`). -/
def Solver.allIds (s : Solver) : List Nat := List.range' 1 s.N

/-! ## Feasibility evaluator (`_is_feasible_route`, lines 67-113) -/

/-- Loop body of `_is_feasible_route`: state is
(remaining route, `current_load`, `current_battery`, `current_time`,
`current_pos`); after the last customer the battery must cover the
return leg to the depot. -/
def feasGo (s : Solver) (v : Vehicle) :
    List Nat → Int → ℚ → ℚ → Nat → Bool
  | [], _, battery, _, pos =>
      decide (s.dist pos 0 * v.consumption_rate ≤ battery)
  | c :: rest, load, battery, time, pos =>
      let cust := s.customerAt c
      let d := s.dist pos c
      let need := d * v.consumption_rate
      if battery < need then false
      else
        let battery' := battery - need
        let t1 := time + d
        if cust.due_time < t1 then false
        else
          let t2 := max t1 cust.ready_time
          let t3 := t2 + cust.service_time
          let load' := load + cust.demand
          if v.capacity < load' then false
          else feasGo s v rest load' battery' t3 c

/-- `_is_feasible_route(route, vehicle)`: empty routes are accepted up
front, otherwise the traversal is simulated from the depot with a full
battery, zero load and time zero. -/
def is_feasible_route (s : Solver) (route : List Nat) (v : Vehicle) : Bool :=
  if route.isEmpty then true
  else feasGo s v route 0 v.battery_capacity 0 0

/-- Transcription of the specification's description of feasibility
(§4.2 / claim C1): at each customer in order the remaining battery
covers the leg's energy, the arrival time does not exceed the due time,
and the accumulated load stays within capacity; arrival is clamped
forward to the ready time and service time is added after each visit;
after the last customer the battery covers the return leg. -/
def TraverseOk (s : Solver) (v : Vehicle) :
    List Nat → Int → ℚ → ℚ → Nat → Prop
  | [], _, battery, _, pos =>
      s.dist pos 0 * v.consumption_rate ≤ battery
  | c :: rest, load, battery, time, pos =>
      let cust := s.customerAt c
      let d := s.dist pos c
      d * v.consumption_rate ≤ battery ∧
      time + d ≤ cust.due_time ∧
      load + cust.demand ≤ v.capacity ∧
      TraverseOk s v rest (load + cust.demand)
        (battery - d * v.consumption_rate)
        (max (time + d) cust.ready_time + cust.service_time) c

/-- The specification's feasibility predicate: the empty route is
feasible, a non-empty route must admit the simulated traversal. -/
def FeasSpec (s : Solver) (route : List Nat) (v : Vehicle) : Prop :=
  route = [] ∨ TraverseOk s v route 0 v.battery_capacity 0 0

/-! ## Cost model (`_calculate_route_cost`, `_calculate_discharge_benefit`) -/

/-- Accumulated leg distances of `_calculate_route_cost`, including the
final return leg to the depot, starting from `current_pos = pos`. -/
def routeDistanceFrom (s : Solver) : List Nat → Nat → ℚ
  | [], pos => s.dist pos 0
  | c :: rest, pos => s.dist pos c + routeDistanceFrom s rest c

/-- Loop of `_calculate_discharge_benefit` (lines 137-164): walk the
route accumulating travel time, clamp service start to the ready time,
and add `overlap_duration * 0.1` whenever the service interval overlaps
the peak-hours interval. -/
def dischargeGo (s : Solver) : List Nat → ℚ → Nat → ℚ
  | [], _, _ => 0
  | c :: rest, time, pos =>
      let cust := s.customerAt c
      let t1 := time + s.dist pos c
      let sStart := max t1 cust.ready_time
      let sEnd := sStart + cust.service_time
      let oStart := max sStart s.peak_start
      let oEnd := min sEnd s.peak_end
      (if oStart < oEnd then (oEnd - oStart) * (1/10) else 0) +
        dischargeGo s rest sEnd c

/-- `_calculate_discharge_benefit(route)`. -/
def calculate_discharge_benefit (s : Solver) (route : List Nat) : ℚ :=
  dischargeGo s route 0 0

/-- `_calculate_route_cost(route, vehicle)`: 0 for an empty route, else
the depot-to-depot round-trip distance minus the discharge benefit when
discharge is enabled.  The `vehicle` argument is accepted but unused,
exactly as in the source. -/
def calculate_route_cost (s : Solver) (route : List Nat) (_v : Vehicle) : ℚ :=
  if route.isEmpty then 0
  else
    routeDistanceFrom s route 0 -
      (if s.enable_discharge then calculate_discharge_benefit s route else 0)

/-- Service-start times per customer as described by the specification
(claim C5): elapsed time is tracked exactly as in the feasibility
evaluator — arrival is accumulated distance, clamped forward to the
ready time, with service time added after each visit. -/
def serviceStarts (s : Solver) : List Nat → ℚ → Nat → List ℚ
  | [], _, _ => []
  | c :: rest, time, pos =>
      let cust := s.customerAt c
      let sStart := max (time + s.dist pos c) cust.ready_time
      sStart :: serviceStarts s rest (sStart + cust.service_time) c

/-- Length of the overlap of intervals `[a, b]` and `[c, d]`. -/
def overlapLen (a b c d : ℚ) : ℚ := max 0 (min b d - max a c)

/-- The specification's discharge benefit (claim C5): the sum over
visited customers of (overlap between the customer's service interval
and the peak-hours interval) times the fixed benefit rate `0.1`. -/
def dischargeBenefitSpec (s : Solver) (route : List Nat) : ℚ :=
  ((route.zip (serviceStarts s route 0 0)).map (fun p =>
      overlapLen p.2 (p.2 + (s.customerAt p.1).service_time)
        s.peak_start s.peak_end * (1/10))).sum

/-! ## Fitness and elitist selection (`solve`, lines 356-378 and 397-401) -/

/-- Sum of the demands of the customers on a route
(`sum(self.customers[c-1].demand for c in route)`). -/
def routeDemandSum (s : Solver) (route : List Nat) : Int :=
  (route.map (fun c => (s.customerAt c).demand)).sum

/-- Cost-accumulation loop of the fitness evaluation
(`for i, route in enumerate(solution): if route and i < len(self.vehicles)`):
a non-empty route paired with vehicle `i` contributes its route cost if
feasible, else the penalty `1000 +` sum of its demands; routes beyond
the vehicle count (and empty routes) contribute nothing. -/
def evalRoutes (s : Solver) : List (List Nat) → Nat → ℚ
  | [], _ => 0
  | route :: rest, i =>
      (if ¬route.isEmpty ∧ i < s.vehicles.length then
        let v := s.vehicles.getD i default
        if is_feasible_route s route v then calculate_route_cost s route v
        else 1000 + (routeDemandSum s route : ℚ)
      else 0) + evalRoutes s rest (i + 1)

/-- Number of customer ids `1..N` that appear in no route of the
assignment (`len(set(range(1, N+1)) - assigned_customers)`). -/
def unassignedCount (s : Solver) (solution : List (List Nat)) : Nat :=
  (s.allIds.filter (fun c => ¬ c ∈ solution.flatten)).length

/-- Fitness of an assignment: accumulated route cost/penalties plus
`2000` per unassigned customer (lines 356-378). -/
def fitness (s : Solver) (solution : List (List Nat)) : ℚ :=
  evalRoutes s solution 0 + 2000 * (unassignedCount s solution : ℚ)

/-- The specification's fitness (claim C2): sum over route/vehicle
pairs of (route cost if feasible, else `1000 +` sum of demands), plus
`2000` times the number of unassigned customer ids. -/
def fitnessSpec (s : Solver) (solution : List (List Nat)) : ℚ :=
  ((solution.zip s.vehicles).map (fun p =>
      if is_feasible_route s p.1 p.2 then calculate_route_cost s p.1 p.2
      else 1000 + (routeDemandSum s p.1 : ℚ))).sum +
    2000 * (unassignedCount s solution : ℚ)

/-- `np.argsort(fitness_scores)` applied to the population: the
population sorted by fitness ascending. -/
def sortByFitness (s : Solver) (pop : List (List (List Nat))) :
    List (List (List Nat)) :=
  pop.mergeSort (fun a b => fitness s a ≤ fitness s b)

/-- Elitist selection (lines 397-401): the `elite_size` lowest-fitness
members of the population. -/
def selectElite (s : Solver) (pop : List (List (List Nat))) :
    List (List (List Nat)) :=
  (sortByFitness s pop).take elite_size

/-! ## Constructive heuristic (`_generate_initial_solution`, lines 166-236) -/

/-- Inner scan of the greedy phase: among the unvisited customers whose
tentative-appended route is feasible, the one of minimum distance from
`current_pos` (strict improvement, first-seen wins ties), or `none`. -/
def findNearestFeasible (s : Solver) (v : Vehicle) (route : List Nat)
    (pos : Nat) (unvisited : List Nat) : Option Nat :=
  unvisited.foldl (fun best c =>
    if is_feasible_route s (route ++ [c]) v then
      match best with
      | none => some c
      | some b => if s.dist pos c < s.dist pos b then some c else best
    else best) none

/-- `while unvisited:` loop of the greedy phase for one vehicle: extend
the route with the nearest feasible unvisited customer until none
exists.  `fuel` bounds the iteration count; it is instantiated with
`unvisited.length`, which the Python loop can never exceed since every
iteration removes one customer. -/
def greedyExtend (s : Solver) (v : Vehicle) :
    Nat → List Nat → Nat → List Nat → List Nat × List Nat
  | 0, route, _, unvisited => (route, unvisited)
  | fuel + 1, route, pos, unvisited =>
      match findNearestFeasible s v route pos unvisited with
      | none => (route, unvisited)
      | some c => greedyExtend s v fuel (route ++ [c]) c (unvisited.erase c)

/-- Greedy phase over the vehicle list (lines 171-199): one route per
vehicle, stopping when no unvisited customer remains; empty routes are
not recorded. -/
def greedyPhase (s : Solver) :
    List Vehicle → List Nat → List (List Nat) × List Nat
  | [], unvisited => ([], unvisited)
  | v :: vs, unvisited =>
      if unvisited.isEmpty then ([], unvisited)
      else
        let p := greedyExtend s v unvisited.length [] 0 unvisited
        let q := greedyPhase s vs p.2
        (if p.1.isEmpty then q.1 else p.1 :: q.1, q.2)

/-- Best-position scan of the repair pass (lines 210-220): over all
insertion positions of `c` into `route`, the feasible one of minimum
cost increase (strict improvement, first-seen wins ties), or `none`
when no position is feasible. -/
def bestInsertion (s : Solver) (v : Vehicle) (route : List Nat) (c : Nat) :
    Option (Nat × ℚ) :=
  (List.range (route.length + 1)).foldl (fun best pos =>
    let temp := route.insertIdx pos c
    if is_feasible_route s temp v then
      let ci := calculate_route_cost s temp v - calculate_route_cost s route v
      match best with
      | none => some (pos, ci)
      | some b => if ci < b.2 then some (pos, ci) else best
    else best) none

/-- Route scan of the repair pass (lines 207-225), walking the route
list with its vehicle index: try each route in order (skipping routes
of length ≥ 10); the first route admitting a feasible insertion
receives `c` at its best position (`routes[i].insert(best_pos, c)`),
the rest is kept unchanged. -/
def tryInsertGo (s : Solver) (c : Nat) :
    List (List Nat) → Nat → Option (List (List Nat))
  | [], _ => none
  | route :: rest, i =>
      if route.length < 10 then
        match bestInsertion s (s.vehicles.getD i default) route c with
        | some p => some (route.insertIdx p.1 c :: rest)
        | none => (tryInsertGo s c rest (i + 1)).map (route :: ·)
      else (tryInsertGo s c rest (i + 1)).map (route :: ·)

/-- Attempt to place straggler `c` into an existing route; `none` when
no route of length < 10 admits a feasible insertion. -/
def tryInsert (s : Solver) (routes : List (List Nat)) (c : Nat) :
    Option (List (List Nat)) :=
  tryInsertGo s c routes 0

/-- First repair loop (`for customer_idx in list(unvisited)`): attempt
a feasible insertion for each straggler in turn; customers that cannot
be inserted stay unvisited. -/
def repairInsert (s : Solver) :
    List (List Nat) → List Nat → List (List Nat) × List Nat
  | routes, [] => (routes, [])
  | routes, c :: cs =>
      match tryInsert s routes c with
      | some routes' => repairInsert s routes' cs
      | none =>
          let p := repairInsert s routes cs
          (p.1, c :: p.2)

/-- Second repair loop (lines 227-234,
`while unvisited and len(routes) < len(self.customers)`): each
remaining customer opens a new single-customer route; both branches of
the source's `if` append the same new route. -/
def repairNewRoutes (s : Solver) :
    List (List Nat) → List Nat → List (List Nat)
  | routes, [] => routes
  | routes, c :: cs =>
      if routes.length < s.N then repairNewRoutes s (routes ++ [[c]]) cs
      else routes

/-- `_generate_initial_solution()`: greedy nearest-feasible phase over
the vehicles followed by the two repair loops.  Note that the function
takes no customer-order argument: the visitation order is always
`1..N` (the iteration order of the Python set of small ints). -/
def generate_initial_solution (s : Solver) : List (List Nat) :=
  let g := greedyPhase s s.vehicles s.allIds
  if g.2.isEmpty then g.1
  else
    let r := repairInsert s g.1 g.2
    repairNewRoutes s r.1 r.2

/-- Population seeding (`solve`, lines 333-343): per member a fresh
shuffled customer order is drawn (`shuffles` holds one draw per loop
iteration, `population_size` of them) — and then discarded, because
`_generate_initial_solution()` is called without arguments; members
that come back empty are skipped. -/
def seedPopulation (s : Solver) (shuffles : List (List Nat)) :
    List (List (List Nat)) :=
  shuffles.filterMap (fun _ =>
    let sol := generate_initial_solution s
    if sol.isEmpty then none else some sol)

/-! ## Genetic operators (`_mutate_solution`, `_crossover_solutions`) -/

/-- `route[i], route[j] = route[j], route[i]`. -/
def listSwap (l : List Nat) (i j : Nat) : List Nat :=
  (l.set i (l.getD j 0)).set j (l.getD i 0)

/-- `route[a:b+1] = route[a:b+1][::-1]` (for `a ≤ b < l.length`). -/
def reverseSegment (l : List Nat) (a b : Nat) : List Nat :=
  l.take a ++ ((l.drop a).take (b + 1 - a)).reverse ++ l.drop (b + 1)

/-- The random draws consumed by one `_mutate_solution` call:
`random.choice(['swap', 'relocate', 'two_opt'])` selects the
constructor, and the constructor's `Nat` fields model the subsequent
`random.choice` / `random.sample` / `random.randint` draws (each taken
modulo its range). -/
inductive MutChoice
  | swap (rc i j : Nat)
  | relocate (fc ti pi ip : Nat)
  | twoOpt (rc i j : Nat)
deriving Repr, DecidableEq

/-- `_mutate_solution(routes)` (lines 238-278).  `none` models an
`IndexError` raised by `random.choice` on an empty candidate list
(there is no guard in the source; the exception propagates). -/
def mutate_solution (routes : List (List Nat)) (ch : MutChoice) :
    Option (List (List Nat)) :=
  if routes.isEmpty ∨ routes.all List.isEmpty then some routes
  else
    match ch with
    | .swap rc i j =>
        let cands := (List.range routes.length).filter
          (fun k => 1 < (routes.getD k []).length)
        if cands.isEmpty then none
        else
          let ri := cands.getD (rc % cands.length) 0
          let route := routes.getD ri []
          if 2 ≤ route.length then
            some (routes.set ri
              (listSwap route (i % route.length) (j % route.length)))
          else some routes
    | .relocate fc ti pi ip =>
        if 1 < routes.length then
          let cands := (List.range routes.length).filter
            (fun k => ¬(routes.getD k []).isEmpty)
          if cands.isEmpty then none
          else
            let fi := cands.getD (fc % cands.length) 0
            let ti2 := ti % routes.length
            let fromRoute := routes.getD fi []
            let p := pi % fromRoute.length
            let cust := fromRoute.getD p 0
            let m1 := routes.set fi (fromRoute.eraseIdx p)
            let toRoute := m1.getD ti2 []
            let ins := ip % (toRoute.length + 1)
            some (m1.set ti2 (toRoute.insertIdx ins cust))
        else some routes
    | .twoOpt rc i j =>
        let cands := (List.range routes.length).filter
          (fun k => 3 < (routes.getD k []).length)
        if cands.isEmpty then none
        else
          let ri := cands.getD (rc % cands.length) 0
          let route := routes.getD ri []
          if 3 < route.length then
            let i2 := 1 + i % (route.length - 1)
            let j2 := 1 + j % (route.length - 1)
            some (routes.set ri
              (reverseSegment route (min i2 j2) (max i2 j2)))
          else some routes

/-- Duplicate-stripping route copy of `_crossover_solutions`: append
each route filtered against the customers already used, skipping
filtered routes that come back empty; returns the copied routes and the
updated used set (modelled as a list). -/
def stripRoutes (used : List Nat) :
    List (List Nat) → List (List Nat) × List Nat
  | [] => ([], used)
  | r :: rest =>
      let nr := r.filter (fun c => ¬ c ∈ used)
      if nr.isEmpty then stripRoutes used rest
      else
        let p := stripRoutes (used ++ nr) rest
        (nr :: p.1, p.2)

/-- `_crossover_solutions(parent1, parent2)` (lines 280-319): if either
parent carries no customers the other parent is returned; otherwise the
first half of parent1's routes is copied with duplicate stripping, then
parent2's routes, and every customer id `1..N` still missing is
appended to the first route (or forms a new route if there is none). -/
def crossover_solutions (s : Solver) (p1 p2 : List (List Nat)) :
    List (List Nat) :=
  if p1.flatten.isEmpty then p2
  else if p2.flatten.isEmpty then p1
  else
    let a := stripRoutes [] (p1.take (p1.length / 2))
    let b := stripRoutes a.2 p2
    let child := a.1 ++ b.1
    let missing := s.allIds.filter (fun c => ¬ c ∈ b.2)
    if missing.isEmpty then child
    else
      match child with
      | [] => [missing]
      | r :: rs => (r ++ missing) :: rs

/-! ## Output formatting and the solve entry point -/

/-- One entry of the `routes` list built by `_format_solution`. -/
structure RouteInfo where
  vehicle_id : Nat
  route : List Nat
  distance : ℚ
  cost : ℚ
  customers_served : Nat
deriving Repr, DecidableEq

/-- The dictionary returned by `solve`.  Keys that are absent from the
dictionary on some return path (`vehicles_used`, `customers_served`,
`unserved_customers`, `success` are missing from the empty-customer
early return at line 328) are modelled as `Option` fields, `none`
meaning the key is absent. -/
structure SolveResult where
  routes : List RouteInfo
  total_cost : ℚ
  total_distance : ℚ
  vehicles_used : Option Nat
  customers_served : Option Nat
  unserved_customers : Option (List Nat)
  success : Option Bool
deriving Repr, DecidableEq

/-- Per-route loop of `_format_solution` (lines 450-478): non-empty
routes whose index has a vehicle are formatted with depot anchors and
their distance/cost; other routes are skipped. -/
def formatRoutes (s : Solver) : List (List Nat) → Nat → List RouteInfo
  | [], _ => []
  | route :: rest, i =>
      (if ¬route.isEmpty ∧ i < s.vehicles.length then
        [{ vehicle_id := i
           route := 0 :: route ++ [0]
           distance := routeDistanceFrom s route 0
           cost := calculate_route_cost s route (s.vehicles.getD i default)
           customers_served := route.length }]
      else []) ++ formatRoutes s rest (i + 1)

/-- `_format_solution(routes)` (lines 444-503): formats the routes and
derives the aggregates; `unserved_customers` is the set of ids `1..N`
not occurring (as a positive entry) in any formatted route, and
`success` is `unserved == []`. -/
def format_solution (s : Solver) (routes : List (List Nat)) : SolveResult :=
  let fr := formatRoutes s routes 0
  let served := ((fr.map RouteInfo.route).flatten).filter (fun c => 0 < c)
  let unserved := s.allIds.filter (fun c => ¬ c ∈ served)
  { routes := fr
    total_cost := (fr.map RouteInfo.cost).sum
    total_distance := (fr.map RouteInfo.distance).sum
    vehicles_used := some ((fr.filter (fun r => 0 < r.customers_served)).length)
    customers_served := some served.dedup.length
    unserved_customers := some unserved
    success := some unserved.isEmpty }

/-- The dictionary returned at line 328 when the customer list is
empty: only `routes`, `total_cost` and `total_distance` are present. -/
def emptyResult : SolveResult :=
  { routes := [], total_cost := 0, total_distance := 0,
    vehicles_used := none, customers_served := none,
    unserved_customers := none, success := none }

/-- Emergency fallback assignment built in the `except` handler of
`solve` (lines 432-441): `customers_per_vehicle = max(1, N // V)`, and
vehicle `i` receives the contiguous block
`range(i*cpv + 1, min(i*cpv + 1 + cpv, N + 1))` when its start id is
still within `1..N`. -/
def emergency_solution (s : Solver) : List (List Nat) :=
  let cpv := max 1 (s.N / s.vehicles.length)
  (List.range s.vehicles.length).filterMap (fun i =>
    let start := i * cpv + 1
    if start ≤ s.N then
      some (List.range' start (min (start + cpv) (s.N + 1) - start))
    else none)

/-- Outcome of the body of `solve`'s `try` block: either the
genetic-algorithm loop finishes and hands some assignment to
`_format_solution` (the evolved best, or one of the internal
fallbacks), or some statement inside the `try` raises. -/
inductive GAOutcome
  | ok (routes : List (List Nat))
  | raised

/-- Control flow of `solve` (lines 321-442): the empty-customer early
return precedes the `try`; inside it every successful path ends in
`_format_solution(some assignment)`, and the `except` handler returns
`_format_solution(emergency assignment)`. -/
def solve (s : Solver) (o : GAOutcome) : SolveResult :=
  if s.customers.isEmpty then emptyResult
  else
    match o with
    | .ok routes => format_solution s routes
    | .raised => format_solution s (emergency_solution s)

/-! ## Best-solution tracking (`solve`, lines 380-395) -/

/-- Tracking state across generations: `best_cost` (initially
`float('inf')`, modelled as `none`), `best_solution`, and
`no_improvement_count`. -/
structure TrackState where
  bestCost : Option ℚ
  bestSol : Option (List (List Nat))
  counter : Nat
deriving Repr, DecidableEq

/-- `current_best_cost < self.best_cost`, where `none` is
`float('inf')`. -/
def ltOpt (x : ℚ) : Option ℚ → Bool
  | none => true
  | some b => decide (x < b)

/-- `Option ℚ` viewed in `WithTop ℚ` (`none` is `float('inf')`). -/
def toTop : Option ℚ → WithTop ℚ
  | none => ⊤
  | some x => (x : WithTop ℚ)

/-- One generation of best-solution tracking: take the generation's
minimum fitness (`np.argmin`); on strict improvement record it, deep
copy the first member attaining it, and reset the no-improvement
counter, otherwise increment the counter. -/
def stepTrack (s : Solver) (st : TrackState)
    (pop : List (List (List Nat))) : TrackState :=
  match (pop.map (fitness s)).min? with
  | none => st
  | some m =>
      if ltOpt m st.bestCost then
        { bestCost := some m
          bestSol := pop.find? (fun sol => fitness s sol = m)
          counter := 0 }
      else { st with counter := st.counter + 1 }

/-- `self.best_cost = float('inf')`, `self.best_solution = None`,
`no_improvement_count = 0`. -/
def initialTrack : TrackState := ⟨none, none, 0⟩

/-- The tracking behaviour of the generational loop over the sequence
of populations it evaluates: update the best and the counter each
generation, and stop early once the counter reaches
`no_improvement_limit`. -/
def runTrack (s : Solver) :
    TrackState → List (List (List (List Nat))) → TrackState
  | st, [] => st
  | st, pop :: rest =>
      let st' := stepTrack s st pop
      if no_improvement_limit ≤ st'.counter then st'
      else runTrack s st' rest

/-! ## Concrete instances used by counterexamples and witnesses -/

/-- One vehicle, two customers; customer 2 has due time 0 and is one
distance unit from everything, so no insertion position ever admits
it.  Exercises the repair pass of `_generate_initial_solution`. -/
def sRepair : Solver :=
  { customers :=
      [ { id := 1, demand := 1, ready_time := 0, due_time := 100,
          service_time := 0 }
      , { id := 2, demand := 1, ready_time := 0, due_time := 0,
          service_time := 0 } ]
    vehicles := [ { capacity := 10, battery_capacity := 100,
                    consumption_rate := 1 } ]
    dist := fun i j => if i = j then 0 else 1
    enable_discharge := false
    peak_start := 17
    peak_end := 20 }

/-- Three customers, two vehicles: the emergency fallback's block size
is `max 1 (3 / 2) = 1`, so only customers 1 and 2 are placed. -/
def sEmergency : Solver :=
  { customers :=
      [ { id := 1, demand := 0, ready_time := 0, due_time := 100,
          service_time := 0 }
      , { id := 2, demand := 0, ready_time := 0, due_time := 100,
          service_time := 0 }
      , { id := 3, demand := 0, ready_time := 0, due_time := 100,
          service_time := 0 } ]
    vehicles := [ { capacity := 10, battery_capacity := 100,
                    consumption_rate := 1 }
                , { capacity := 10, battery_capacity := 100,
                    consumption_rate := 1 } ]
    dist := fun _ _ => 0
    enable_discharge := false
    peak_start := 17
    peak_end := 20 }

/-- Discharge enabled, one customer at zero distance with a 100-unit
service interval lying inside the peak interval `[0, 100]`: the route
cost is `0 - 100 * 0.1 = -10`. -/
def sDischarge : Solver :=
  { customers :=
      [ { id := 1, demand := 0, ready_time := 0, due_time := 1000,
          service_time := 100 } ]
    vehicles := [ { capacity := 10, battery_capacity := 100,
                    consumption_rate := 1 } ]
    dist := fun _ _ => 0
    enable_discharge := true
    peak_start := 0
    peak_end := 100 }

/-- An empty customer list: `solve` takes the early-return path of
line 328. -/
def sNoCustomers : Solver :=
  { customers := []
    vehicles := [ { capacity := 10, battery_capacity := 100,
                    consumption_rate := 1 } ]
    dist := fun _ _ => 0
    enable_discharge := false
    peak_start := 17
    peak_end := 20 }

/-- A single trivially servable customer at zero distance. -/
def sTiny : Solver :=
  { customers :=
      [ { id := 1, demand := 1, ready_time := 0, due_time := 100,
          service_time := 0 } ]
    vehicles := [ { capacity := 10, battery_capacity := 100,
                    consumption_rate := 1 } ]
    dist := fun _ _ => 0
    enable_discharge := false
    peak_start := 17
    peak_end := 20 }

/-! # Theorems -/

/-- The traversal loop of `_is_feasible_route` accepts exactly the
routes admitted by the specification's simulated traversal. -/
theorem feasGo_iff (s : Solver) (v : Vehicle) :
    ∀ (route : List Nat) (load : Int) (battery time : ℚ) (pos : Nat),
      feasGo s v route load battery time pos = true ↔
        TraverseOk s v route load battery time pos := by
  intro route
  induction route with
  | nil =>
      intro load battery time pos
      simp [feasGo, TraverseOk]
  | cons c rest ih =>
      intro load battery time pos
      simp only [feasGo, TraverseOk]
      split_ifs with h1 h2 h3
      · simp only [Bool.false_eq_true, false_iff]
        intro h
        exact absurd h.1 (not_le.2 h1)
      · simp only [Bool.false_eq_true, false_iff]
        intro h
        exact absurd h.2.1 (not_le.2 h2)
      · simp only [Bool.false_eq_true, false_iff]
        intro h
        exact absurd h.2.2.1 (not_le.2 h3)
      · rw [ih]
        constructor
        · intro h
          exact ⟨not_lt.1 h1, not_lt.1 h2, not_lt.1 h3, h⟩
        · intro h
          exact h.2.2.2

/-- C1: for every route and vehicle, `_is_feasible_route` returns true
iff the simulated traversal from the depot succeeds — at each customer
the remaining battery covers the leg's energy, the arrival time
(accumulated distance, clamped forward to the ready time when early,
service time added after each visit) does not exceed the due time, the
accumulated load stays within capacity, and after the last customer the
battery covers the return leg — and the empty route is feasible for
every vehicle. -/
theorem is_feasible_route_correct :
    (∀ (s : Solver) (route : List Nat) (v : Vehicle),
        is_feasible_route s route v = true ↔ FeasSpec s route v) ∧
    (∀ (s : Solver) (v : Vehicle), is_feasible_route s [] v = true) := by
  refine ⟨fun s route v => ?_, fun s v => rfl⟩
  cases route with
  | nil => simp [is_feasible_route, FeasSpec]
  | cons c rest =>
      unfold is_feasible_route FeasSpec
      simp only [List.isEmpty_cons, if_false, Bool.false_eq_true]
      rw [feasGo_iff]
      simp

/-- C10: `_mutate_solution` is partial.  The assignment `[[1]]` is
non-empty (it passes the function's only guard), yet selecting the
`swap` mutation applies `random.choice` to the empty list of routes
with more than one stop — an `IndexError`, modelled as `none`; likewise
`two_opt` on `[[1,2,3]]`, where no route has more than three stops. -/
theorem mutate_solution_partial :
    (¬([[1]] : List (List Nat)).isEmpty ∧
        ¬([[1]] : List (List Nat)).all List.isEmpty) ∧
    mutate_solution [[1]] (MutChoice.swap 0 0 1) = none ∧
    (¬([[1, 2, 3]] : List (List Nat)).isEmpty ∧
        ¬([[1, 2, 3]] : List (List Nat)).all List.isEmpty) ∧
    mutate_solution [[1, 2, 3]] (MutChoice.twoOpt 0 0 1) = none := by
  decide

/-- Counterexample to C3 as stated: on an empty customer list, `solve`
returns the line-328 dictionary, which contains neither a `success`
flag nor an `unserved_customers` list (both keys absent, modelled as
`none`). -/
theorem solve_empty_input_lacks_keys :
    sNoCustomers.customers = [] ∧
    (solve sNoCustomers (GAOutcome.ok [])).success = none ∧
    (solve sNoCustomers (GAOutcome.ok [])).unserved_customers = none := by
  exact ⟨rfl, rfl, rfl⟩

/-- C3 amended: for every input with a non-empty customer list, every
return path of `solve` (normal, degenerate-fallback and emergency
alike) goes through `_format_solution`, whose result carries an
explicit `unserved_customers` list and a `success` flag, with
`success = true` iff the unserved list is empty. -/
theorem solve_success_iff_no_unserved (s : Solver) (o : GAOutcome)
    (h : s.customers ≠ []) :
    ∃ u : List Nat,
      (solve s o).unserved_customers = some u ∧
      (solve s o).success = some u.isEmpty ∧
      ((solve s o).success = some true ↔ u = []) := by
  have hne : s.customers.isEmpty = false := by
    cases hc : s.customers with
    | nil => exact absurd hc h
    | cons a l => rfl
  have key : ∀ routes : List (List Nat),
      ∃ u : List Nat,
        (format_solution s routes).unserved_customers = some u ∧
        (format_solution s routes).success = some u.isEmpty ∧
        ((format_solution s routes).success = some true ↔ u = []) := by
    intro routes
    have base : ∀ u : List Nat, (some u.isEmpty = some true ↔ u = []) := by
      intro u
      simp [List.isEmpty_iff]
    exact ⟨_, rfl, rfl, base _⟩
  cases o with
  | ok routes =>
      simpa [solve, hne] using key routes
  | raised =>
      simpa [solve, hne] using key (emergency_solution s)

/-- Witness for the amended C3 at a concrete input. -/
theorem solve_success_iff_no_unserved_witness :
    sTiny.customers ≠ [] ∧
    ∃ u : List Nat,
      (solve sTiny (GAOutcome.ok [[1]])).unserved_customers = some u ∧
      (solve sTiny (GAOutcome.ok [[1]])).success = some u.isEmpty ∧
      ((solve sTiny (GAOutcome.ok [[1]])).success = some true ↔ u = []) :=
  ⟨by decide, solve_success_iff_no_unserved sTiny (GAOutcome.ok [[1]])
    (by decide)⟩

/-- C6 (code bug): the seeding loop of `solve` shuffles a fresh
customer order per member and then discards it —
`_generate_initial_solution()` takes no argument — so the seeded
population is `population_size` identical copies of one deterministic
greedy assignment, whatever the drawn orders were. -/
theorem seeding_ignores_shuffled_order (s : Solver)
    (shuffles : List (List Nat)) :
    seedPopulation s shuffles =
      if (generate_initial_solution s).isEmpty then []
      else List.replicate shuffles.length (generate_initial_solution s) := by
  induction shuffles with
  | nil => simp [seedPopulation]
  | cons a l ih =>
      by_cases hg : (generate_initial_solution s).isEmpty
      · simp only [seedPopulation, List.filterMap_cons] at ih ⊢
        simp only [hg, if_true, ite_true] at ih ⊢
        simp only [ih]
      · simp only [seedPopulation, List.filterMap_cons] at ih ⊢
        simp only [hg, if_false, ite_false, Bool.false_eq_true] at ih ⊢
        simp [ih, List.replicate_succ]

/-- The fitness cost loop starting at vehicle index `k` computes the
zip-with-vehicles sum of the claim's formula. -/
theorem evalRoutes_eq (s : Solver) :
    ∀ (sol : List (List Nat)) (k : Nat),
      evalRoutes s sol k =
        ((sol.zip (s.vehicles.drop k)).map (fun p =>
          if is_feasible_route s p.1 p.2 then calculate_route_cost s p.1 p.2
          else 1000 + (routeDemandSum s p.1 : ℚ))).sum := by
  intro sol
  induction sol with
  | nil => intro k; simp [evalRoutes]
  | cons r rest ih =>
      intro k
      by_cases hk : k < s.vehicles.length
      · rw [List.drop_eq_getElem_cons hk]
        simp only [evalRoutes, List.zip_cons_cons, List.map_cons,
          List.sum_cons, ih]
        by_cases hr : r.isEmpty
        · have hr' : r = [] := List.isEmpty_iff.1 hr
          subst hr'
          simp [is_feasible_route, calculate_route_cost]
        · have hgd : s.vehicles.getD k default = s.vehicles[k] :=
            List.getD_eq_getElem s.vehicles default hk
          simp [hr, hk, hgd]
      · have h1 : s.vehicles.drop k = [] :=
          List.drop_eq_nil_of_le (le_of_not_lt hk)
        have h2 : s.vehicles.drop (k + 1) = [] :=
          List.drop_eq_nil_of_le (le_trans (le_of_not_lt hk) (Nat.le_succ k))
        simp [evalRoutes, h1, ih, h2, hk]

/-- C2: in every generation, the fitness assigned to an assignment
equals the sum over its route/vehicle pairs of (the route's cost if the
route is feasible for its vehicle, else `1000` plus the sum of the
demands on the route) plus `2000` per customer id `1..N` appearing in
no route; elitist selection sorts the population by this fitness
ascending and keeps the `elite_size` prefix. -/
theorem fitness_formula_and_elitist_sort :
    (∀ (s : Solver) (sol : List (List Nat)),
        fitness s sol = fitnessSpec s sol) ∧
    (∀ (s : Solver) (pop : List (List (List Nat))),
        (sortByFitness s pop).Perm pop ∧
        (sortByFitness s pop).Pairwise
          (fun a b => fitness s a ≤ fitness s b) ∧
        selectElite s pop = (sortByFitness s pop).take elite_size) := by
  constructor
  · intro s sol
    unfold fitness fitnessSpec
    rw [evalRoutes_eq, List.drop_zero]
  · intro s pop
    refine ⟨List.mergeSort_perm pop _, ?_, rfl⟩
    have htrans : ∀ a b c : List (List Nat),
        decide (fitness s a ≤ fitness s b) = true →
        decide (fitness s b ≤ fitness s c) = true →
        decide (fitness s a ≤ fitness s c) = true := by
      intro a b c hab hbc
      exact decide_eq_true
        (le_trans (of_decide_eq_true hab) (of_decide_eq_true hbc))
    have htotal : ∀ a b : List (List Nat),
        (decide (fitness s a ≤ fitness s b) ||
          decide (fitness s b ≤ fitness s a)) = true := by
      intro a b
      rcases le_total (fitness s a) (fitness s b) with h | h
      · simp [h]
      · simp [h]
    have hs := List.sorted_mergeSort htrans htotal pop
    exact hs.imp (fun hab => of_decide_eq_true hab)

/-- The source's guarded overlap contribution equals the clamped
overlap length times the rate. -/
theorem ite_overlap (a st c d : ℚ) :
    (if max a c < min (a + st) d then (min (a + st) d - max a c) * (1/10)
     else 0) = overlapLen a (a + st) c d * (1/10) := by
  unfold overlapLen
  by_cases h : max a c < min (a + st) d
  · rw [if_pos h, max_eq_right (sub_nonneg.mpr h.le)]
  · rw [if_neg h, max_eq_left (sub_nonpos.mpr (le_of_not_lt h)), zero_mul]

/-- The benefit loop of `_calculate_discharge_benefit` computes the
specification's per-customer overlap sum, for every starting time and
position. -/
theorem dischargeGo_eq (s : Solver) :
    ∀ (route : List Nat) (t : ℚ) (pos : Nat),
      dischargeGo s route t pos =
        ((route.zip (serviceStarts s route t pos)).map (fun p =>
          overlapLen p.2 (p.2 + (s.customerAt p.1).service_time)
            s.peak_start s.peak_end * (1/10))).sum := by
  intro route
  induction route with
  | nil => intro t pos; simp [dischargeGo, serviceStarts]
  | cons c rest ih =>
      intro t pos
      simp only [dischargeGo, serviceStarts, List.zip_cons_cons,
        List.map_cons, List.sum_cons, ih]
      congr 1
      exact ite_overlap _ _ _ _

/-- A list of non-negative rationals containing a positive element has
positive sum. -/
theorem sum_pos_of_mem :
    ∀ (l : List ℚ), (∀ x ∈ l, 0 ≤ x) → ∀ x ∈ l, 0 < x → 0 < l.sum := by
  intro l
  induction l with
  | nil => intro _ x hx; exact absurd hx (List.not_mem_nil x)
  | cons y t ih =>
      intro hnn x hx hxpos
      rcases List.mem_cons.1 hx with rfl | hxt
      · have ht : 0 ≤ t.sum :=
          List.sum_nonneg (fun z hz => hnn z (List.mem_cons_of_mem _ hz))
        simpa using add_pos_of_pos_of_nonneg hxpos ht
      · have hy : 0 ≤ y := hnn y (List.mem_cons_self y t)
        have ht : 0 < t.sum :=
          ih (fun z hz => hnn z (List.mem_cons_of_mem _ hz)) x hxt hxpos
        simpa using add_pos_of_nonneg_of_pos hy ht

/-- Every term of the specification's discharge sum is non-negative. -/
theorem dischargeBenefitSpec_nonneg (s : Solver) (route : List Nat) :
    0 ≤ dischargeBenefitSpec s route := by
  unfold dischargeBenefitSpec
  apply List.sum_nonneg
  intro x hx
  simp only [List.mem_map] at hx
  obtain ⟨p, hp, rfl⟩ := hx
  exact mul_nonneg (le_max_left 0 _) (by norm_num)

/-- C5: with discharge enabled, the cost of a non-empty route is the
depot-to-depot round-trip distance minus the sum over visited customers
of (overlap between the customer's service interval and the peak-hours
interval) times the benefit rate `0.1`, elapsed time tracked as in the
feasibility evaluator; a customer whose positive-length service
interval lies inside the peak interval makes the cost strictly smaller
than the round-trip distance; and the cost can be negative. -/
theorem route_cost_discharge_correct :
    (∀ (s : Solver) (route : List Nat) (v : Vehicle),
        route ≠ [] → s.enable_discharge = true →
        calculate_route_cost s route v =
          routeDistanceFrom s route 0 - dischargeBenefitSpec s route) ∧
    (∀ (s : Solver) (route : List Nat) (v : Vehicle),
        route ≠ [] → s.enable_discharge = true →
        (∃ p ∈ route.zip (serviceStarts s route 0 0),
            0 < (s.customerAt p.1).service_time ∧
            s.peak_start ≤ p.2 ∧
            p.2 + (s.customerAt p.1).service_time ≤ s.peak_end) →
        calculate_route_cost s route v < routeDistanceFrom s route 0) ∧
    calculate_route_cost sDischarge [1]
        (sDischarge.vehicles.getD 0 default) = -10 ∧
    calculate_route_cost sDischarge [1]
        (sDischarge.vehicles.getD 0 default) < 0 := by
  have heq : ∀ (s : Solver) (route : List Nat) (v : Vehicle),
      route ≠ [] → s.enable_discharge = true →
      calculate_route_cost s route v =
        routeDistanceFrom s route 0 - dischargeBenefitSpec s route := by
    intro s route v hne hd
    have hre : route.isEmpty = false := List.isEmpty_eq_false.2 hne
    unfold calculate_route_cost calculate_discharge_benefit
    rw [hre, hd, dischargeGo_eq]
    rfl
  have hconc : calculate_route_cost sDischarge [1]
      (sDischarge.vehicles.getD 0 default) = -10 := by
    norm_num [calculate_route_cost, routeDistanceFrom,
      calculate_discharge_benefit, dischargeGo, Solver.customerAt, sDischarge]
  refine ⟨heq, ?_, hconc, by rw [hconc]; norm_num⟩
  intro s route v hne hd hp
  obtain ⟨p, hmem, hst, hlo, hhi⟩ := hp
  rw [heq s route v hne hd]
  have hterm :
      overlapLen p.2 (p.2 + (s.customerAt p.1).service_time)
          s.peak_start s.peak_end * (1/10) =
        (s.customerAt p.1).service_time * (1/10) := by
    unfold overlapLen
    rw [min_eq_left hhi, max_eq_left hlo,
      add_sub_cancel_left, max_eq_right (le_of_lt hst)]
  have hpos : 0 < dischargeBenefitSpec s route := by
    have hmm : (s.customerAt p.1).service_time * (1/10) ∈
        (route.zip (serviceStarts s route 0 0)).map (fun p =>
          overlapLen p.2 (p.2 + (s.customerAt p.1).service_time)
            s.peak_start s.peak_end * (1/10)) := by
      rw [← hterm]
      exact List.mem_map_of_mem _ hmem
    have hnn : ∀ x ∈ (route.zip (serviceStarts s route 0 0)).map (fun p =>
        overlapLen p.2 (p.2 + (s.customerAt p.1).service_time)
          s.peak_start s.peak_end * (1/10)), (0:ℚ) ≤ x := by
      intro x hx
      simp only [List.mem_map] at hx
      obtain ⟨q, hq, rfl⟩ := hx
      exact mul_nonneg (le_max_left 0 _) (by norm_num)
    have hxpos : 0 < (s.customerAt p.1).service_time * (1/10) := by
      have : (0:ℚ) < 1/10 := by norm_num
      exact mul_pos hst this
    exact sum_pos_of_mem _ hnn _ hmm hxpos
  linarith

/-- Witness for C5 at a concrete instance: `sDischarge`'s single
customer is served wholly inside peak hours, so the route cost is
strictly below the round-trip distance. -/
theorem route_cost_discharge_correct_witness :
    (([1] : List Nat) ≠ [] ∧ sDischarge.enable_discharge = true ∧
      ∃ p ∈ ([1] : List Nat).zip (serviceStarts sDischarge [1] 0 0),
        0 < (sDischarge.customerAt p.1).service_time ∧
        sDischarge.peak_start ≤ p.2 ∧
        p.2 + (sDischarge.customerAt p.1).service_time ≤
          sDischarge.peak_end) ∧
    calculate_route_cost sDischarge [1]
        (sDischarge.vehicles.getD 0 default) <
      routeDistanceFrom sDischarge [1] 0 := by
  have hss : serviceStarts sDischarge [1] 0 0 = [0] := by
    norm_num [serviceStarts, Solver.customerAt, sDischarge]
  have h1 : ([1] : List Nat) ≠ [] := by simp
  have h3 : ∃ p ∈ ([1] : List Nat).zip (serviceStarts sDischarge [1] 0 0),
      0 < (sDischarge.customerAt p.1).service_time ∧
      sDischarge.peak_start ≤ p.2 ∧
      p.2 + (sDischarge.customerAt p.1).service_time ≤
        sDischarge.peak_end := by
    rw [hss]
    refine ⟨(1, 0), by simp, ?_, ?_, ?_⟩ <;>
      norm_num [Solver.customerAt, sDischarge]
  exact ⟨⟨h1, rfl, h3⟩,
    route_cost_discharge_correct.2.1 sDischarge [1]
      (sDischarge.vehicles.getD 0 default) h1 rfl h3⟩

/-- One tracking step never increases the recorded best cost. -/
theorem stepTrack_le (s : Solver) (st : TrackState)
    (pop : List (List (List Nat))) :
    toTop (stepTrack s st pop).bestCost ≤ toTop st.bestCost := by
  unfold stepTrack
  cases hmin : (pop.map (fitness s)).min? with
  | none => exact le_refl _
  | some m =>
      by_cases h : ltOpt m st.bestCost = true
      · simp only [h, if_true]
        cases hb : st.bestCost with
        | none => exact le_top
        | some b =>
            have hmb : m < b := by
              have := h
              rw [hb] at this
              exact of_decide_eq_true this
            show (m : WithTop ℚ) ≤ (b : WithTop ℚ)
            exact_mod_cast le_of_lt hmb
      · simp only [h, if_false, Bool.false_eq_true]
        exact le_refl _

/-- The tracked best cost is monotone over any sequence of
generations. -/
theorem runTrack_le (s : Solver) :
    ∀ (pops : List (List (List (List Nat)))) (st : TrackState),
      toTop (runTrack s st pops).bestCost ≤ toTop st.bestCost := by
  intro pops
  induction pops with
  | nil => intro st; exact le_refl _
  | cons pop rest ih =>
      intro st
      by_cases h : no_improvement_limit ≤ (stepTrack s st pop).counter
      · simp only [runTrack, if_pos h]
        exact stepTrack_le s st pop
      · simp only [runTrack, if_neg h]
        exact le_trans (ih _) (stepTrack_le s st pop)

/-- C9: across the generations of one solve invocation the tracked
best fitness is monotonically non-increasing; the running best is
replaced (by the generation's first minimum-fitness member) exactly
when the generation's minimum fitness is strictly below the recorded
best, the no-improvement counter resets on such a strict improvement
and increments otherwise, and the loop stops early once the counter
reaches `no_improvement_limit`. -/
theorem best_tracking_correct :
    (∀ (s : Solver) (st : TrackState)
        (pops : List (List (List (List Nat)))),
        toTop (runTrack s st pops).bestCost ≤ toTop st.bestCost) ∧
    (∀ (s : Solver) (st : TrackState) (pop : List (List (List Nat)))
        (m : ℚ), (pop.map (fitness s)).min? = some m →
        (ltOpt m st.bestCost = true →
          stepTrack s st pop =
            ⟨some m, pop.find? (fun sol => fitness s sol = m), 0⟩) ∧
        (ltOpt m st.bestCost = false →
          stepTrack s st pop = ⟨st.bestCost, st.bestSol, st.counter + 1⟩)) ∧
    (∀ (s : Solver) (st : TrackState) (pop : List (List (List Nat)))
        (rest : List (List (List (List Nat)))),
        (no_improvement_limit ≤ (stepTrack s st pop).counter →
          runTrack s st (pop :: rest) = stepTrack s st pop) ∧
        ((stepTrack s st pop).counter < no_improvement_limit →
          runTrack s st (pop :: rest) =
            runTrack s (stepTrack s st pop) rest)) := by
  refine ⟨fun s st pops => runTrack_le s pops st, ?_, ?_⟩
  · intro s st pop m hmin
    constructor
    · intro himp
      unfold stepTrack
      rw [hmin]
      simp only [himp, if_true]
    · intro hni
      unfold stepTrack
      rw [hmin]
      simp only [hni, if_false, Bool.false_eq_true]
  · intro s st pop rest
    constructor
    · intro h
      simp only [runTrack, if_pos h]
    · intro h
      simp only [runTrack, if_neg (not_le.2 h)]

/-- Witness for C9 at concrete inputs: a strict improvement from the
initial state records the singleton generation's minimum and resets the
counter, and a step whose counter reaches the limit stops the loop. -/
theorem best_tracking_correct_witness :
    ((([[[1]]] : List (List (List Nat))).map (fitness sTiny)).min? =
        some (fitness sTiny [[1]]) ∧
      ltOpt (fitness sTiny [[1]]) initialTrack.bestCost = true ∧
      stepTrack sTiny initialTrack [[[1]]] =
        ⟨some (fitness sTiny [[1]]),
          ([[[1]]] : List (List (List Nat))).find?
            (fun sol => fitness sTiny sol = fitness sTiny [[1]]), 0⟩) ∧
    (no_improvement_limit ≤
        (stepTrack sTiny
          ⟨some (fitness sTiny [[1]]), none, no_improvement_limit⟩
          [[[1]]]).counter ∧
      runTrack sTiny
          ⟨some (fitness sTiny [[1]]), none, no_improvement_limit⟩
          [[[[1]]]] =
        stepTrack sTiny
          ⟨some (fitness sTiny [[1]]), none, no_improvement_limit⟩
          [[[1]]]) := by
  have hmin : ((([[[1]]] : List (List (List Nat))).map
      (fitness sTiny)).min?) = some (fitness sTiny [[1]]) := rfl
  have hstep2 : stepTrack sTiny
      ⟨some (fitness sTiny [[1]]), none, no_improvement_limit⟩ [[[1]]] =
      ⟨some (fitness sTiny [[1]]), none, no_improvement_limit + 1⟩ :=
    (best_tracking_correct.2.1 sTiny
      ⟨some (fitness sTiny [[1]]), none, no_improvement_limit⟩
      [[[1]]] (fitness sTiny [[1]]) hmin).2
      (by simp [ltOpt])
  have hcnt : no_improvement_limit ≤
      (stepTrack sTiny
        ⟨some (fitness sTiny [[1]]), none, no_improvement_limit⟩
        [[[1]]]).counter := by
    rw [hstep2]
    exact Nat.le_succ _
  refine ⟨⟨hmin, rfl, ?_⟩, hcnt, ?_⟩
  · exact (best_tracking_correct.2.1 sTiny initialTrack [[[1]]]
      (fitness sTiny [[1]]) hmin).1 rfl
  · exact (best_tracking_correct.2.2 sTiny
      ⟨some (fitness sTiny [[1]]), none, no_improvement_limit⟩
      [[[1]]] []).1 hcnt

/-- Flattening the emergency fallback's contiguous blocks yields the
initial segment `1 .. min (V * cpv) N` of customer ids. -/
theorem emergencyBlocks_flatten (N cpv : Nat) (hc : 1 ≤ cpv) :
    ∀ V : Nat,
      ((List.range V).filterMap (fun i =>
        if i * cpv + 1 ≤ N then
          some (List.range' (i * cpv + 1)
            (min (i * cpv + 1 + cpv) (N + 1) - (i * cpv + 1)))
        else none)).flatten =
      List.range' 1 (min (V * cpv) N) := by
  intro V
  induction V with
  | zero => simp
  | succ V ih =>
      rw [List.range_succ, List.filterMap_append, List.flatten_append, ih]
      by_cases h : V * cpv + 1 ≤ N
      · simp only [List.filterMap_cons, if_pos h, List.filterMap_nil,
          List.flatten_cons, List.flatten_nil, List.append_nil]
        have h1 : min (V * cpv) N = V * cpv := by omega
        rw [h1]
        have hst : 1 + 1 * (V * cpv) = V * cpv + 1 := by omega
        have hap := List.range'_append 1 (V * cpv)
          (min (V * cpv + 1 + cpv) (N + 1) - (V * cpv + 1)) 1
        rw [hst] at hap
        rw [hap]
        congr 1
        rw [Nat.succ_mul]
        omega
      · simp only [List.filterMap_cons, if_neg h, List.filterMap_nil,
          List.flatten_nil, List.append_nil]
        congr 1
        rw [Nat.succ_mul]
        omega

/-- C8 amended: the `except` handler of `solve` returns
`_format_solution` of the emergency assignment, which is the contiguous
block partition placing exactly the customers
`1 .. min (V * max 1 (N / V)) N`, each in exactly one route; trailing
customers beyond that bound are dropped (so when `V < N` and `V ∤ N`
the partition is not complete). -/
theorem emergency_fallback_correct (s : Solver) :
    (emergency_solution s).flatten =
      List.range' 1
        (min (s.vehicles.length * max 1 (s.N / s.vehicles.length)) s.N) ∧
    (emergency_solution s).flatten.Nodup ∧
    (∀ c : Nat, c ∈ (emergency_solution s).flatten ↔
        1 ≤ c ∧
        c ≤ min (s.vehicles.length * max 1 (s.N / s.vehicles.length)) s.N) ∧
    solve s GAOutcome.raised =
      (if s.customers.isEmpty then emptyResult
       else format_solution s (emergency_solution s)) := by
  have hflat : (emergency_solution s).flatten =
      List.range' 1
        (min (s.vehicles.length * max 1 (s.N / s.vehicles.length)) s.N) :=
    emergencyBlocks_flatten s.N (max 1 (s.N / s.vehicles.length))
      (le_max_left 1 _) s.vehicles.length
  refine ⟨hflat, ?_, ?_, ?_⟩
  · rw [hflat]
    exact List.nodup_range' 1 _
  · intro c
    rw [hflat, List.mem_range'_1]
    omega
  · unfold solve
    rfl

/-- Counterexample to C8 as stated: with 3 customers and 2 vehicles the
emergency partition has block size `max 1 (3 / 2) = 1` and places only
customers 1 and 2 — customer 3 is in no route, and the returned result
reports it unserved. -/
theorem emergency_drops_customer :
    sEmergency.N = 3 ∧ sEmergency.vehicles.length = 2 ∧
    emergency_solution sEmergency = [[1], [2]] ∧
    3 ∈ sEmergency.allIds ∧
    3 ∉ (emergency_solution sEmergency).flatten ∧
    (solve sEmergency GAOutcome.raised).unserved_customers = some [3] := by
  refine ⟨rfl, rfl, by decide, by decide, by decide, ?_⟩
  decide

/-- Writing an element into a list: pushing the overwritten element on
the result is a permutation of pushing the new element on the input. -/
theorem set_perm_cons :
    ∀ (l : List Nat) (k : Nat) (x : Nat), k < l.length →
      (l.getD k 0 :: l.set k x).Perm (x :: l) := by
  intro l
  induction l with
  | nil => intro k x hk; simp at hk
  | cons h t ih =>
      intro k x hk
      cases k with
      | zero => exact List.Perm.swap x h t
      | succ k =>
          have hk' : k < t.length := by simpa using hk
          have s1 : (t.getD k 0 :: h :: t.set k x).Perm
              (h :: t.getD k 0 :: t.set k x) := List.Perm.swap _ _ _
          have s2 : (h :: t.getD k 0 :: t.set k x).Perm (h :: x :: t) :=
            (ih k x hk').cons h
          exact (s1.trans s2).trans (List.Perm.swap _ _ _)

/-- Replacing one route of an assignment: the flattened result plus the
replaced route is a permutation of the flattened input plus the new
route. -/
theorem flatten_set_perm :
    ∀ (l : List (List Nat)) (i : Nat) (r' : List Nat), i < l.length →
      ((l.set i r').flatten ++ l.getD i []).Perm (l.flatten ++ r') := by
  intro l
  induction l with
  | nil => intro i r' hi; simp at hi
  | cons h t ih =>
      intro i r' hi
      cases i with
      | zero =>
          simp only [List.set_cons_zero, List.flatten_cons,
            List.getD_cons_zero, List.append_assoc]
          have s1 : (r' ++ (t.flatten ++ h)).Perm (r' ++ (h ++ t.flatten)) :=
            List.Perm.append_left r' List.perm_append_comm
          have s2 : (r' ++ (h ++ t.flatten)).Perm ((h ++ t.flatten) ++ r') :=
            List.perm_append_comm
          have s3 : ((h ++ t.flatten) ++ r').Perm (h ++ (t.flatten ++ r')) := by
            rw [List.append_assoc]
          exact (s1.trans s2).trans s3
      | succ i =>
          have hi' : i < t.length := by simpa using hi
          simp only [List.set_cons_succ, List.flatten_cons,
            List.getD_cons_succ, List.append_assoc]
          exact List.Perm.append_left h (ih i r' hi')

/-- Removing the element at index `p` and pushing it back on is a
permutation of the original list. -/
theorem perm_getD_cons_eraseIdx :
    ∀ (r : List Nat) (p : Nat), p < r.length →
      r.Perm (r.getD p 0 :: r.eraseIdx p) := by
  intro r
  induction r with
  | nil => intro p hp; simp at hp
  | cons h t ih =>
      intro p hp
      cases p with
      | zero => simp
      | succ p =>
          have hp' : p < t.length := by simpa using hp
          have s1 : (h :: t).Perm (h :: t.getD p 0 :: t.eraseIdx p) :=
            (ih p hp').cons h
          exact s1.trans (List.Perm.swap _ _ _)

/-- `route[i], route[j] = route[j], route[i]` permutes the route. -/
theorem listSwap_perm (l : List Nat) (i j : Nat)
    (hi : i < l.length) (hj : j < l.length) :
    (listSwap l i j).Perm l := by
  unfold listSwap
  have hgd : (l.set i (l.getD j 0)).getD j 0 = l.getD j 0 := by
    by_cases hij : i = j
    · subst hij
      rw [List.getD_eq_getElem _ _ (by simpa using hi)]
      exact List.getElem_set_self _
    · rw [List.getD_eq_getElem _ _ (by simpa using hj),
        List.getElem_set_ne hij, ← List.getD_eq_getElem _ _ hj]
  have h1 : (l.getD i 0 :: l.set i (l.getD j 0)).Perm (l.getD j 0 :: l) :=
    set_perm_cons l i (l.getD j 0) hi
  have h2 : ((l.set i (l.getD j 0)).getD j 0 ::
      (l.set i (l.getD j 0)).set j (l.getD i 0)).Perm
        (l.getD i 0 :: l.set i (l.getD j 0)) :=
    set_perm_cons (l.set i (l.getD j 0)) j (l.getD i 0)
      (by simpa using hj)
  rw [hgd] at h2
  have h3 : (l.getD j 0 ::
      (l.set i (l.getD j 0)).set j (l.getD i 0)).Perm (l.getD j 0 :: l) :=
    h2.trans h1
  exact h3.cons_inv

/-- Reversing the in-place slice `route[a:b+1]` permutes the route. -/
theorem reverseSegment_perm (l : List Nat) (a b : Nat) (hab : a ≤ b + 1) :
    (reverseSegment l a b).Perm l := by
  unfold reverseSegment
  have hsplit : l = l.take a ++ ((l.drop a).take (b + 1 - a) ++
      (l.drop a).drop (b + 1 - a)) := by
    rw [List.take_append_drop, List.take_append_drop]
  have hdd : (l.drop a).drop (b + 1 - a) = l.drop (b + 1) := by
    rw [List.drop_drop]
    congr 1
    omega
  conv_rhs => rw [hsplit]
  rw [hdd, List.append_assoc]
  exact List.Perm.append_left _
    (List.Perm.append_right _ (List.reverse_perm _))

/-- An element selected by `random.choice` from a non-empty list is in
the list. -/
theorem getD_mod_mem (l : List Nat) (k : Nat) (h : ¬l.isEmpty) :
    l.getD (k % l.length) 0 ∈ l := by
  have hlen : 0 < l.length := by
    cases l with
    | nil => exact absurd rfl h
    | cons a t => simp
  have hk : k % l.length < l.length := Nat.mod_lt _ hlen
  rw [List.getD_eq_getElem _ _ hk]
  exact List.getElem_mem hk

/-- Replacing a route by a permutation-equivalent one permutes the
flattened assignment. -/
theorem set_route_flatten_perm (routes : List (List Nat)) (ri : Nat)
    (r' : List Nat) (hri : ri < routes.length)
    (hperm : r'.Perm (routes.getD ri [])) :
    (routes.set ri r').flatten.Perm routes.flatten := by
  have hfs := flatten_set_perm routes ri r' hri
  have hstep : ((routes.set ri r').flatten ++ routes.getD ri []).Perm
      (routes.flatten ++ routes.getD ri []) :=
    hfs.trans (List.Perm.append_left _ hperm)
  exact (List.perm_append_right_iff _).1 hstep

/-- Every mutation kind, whenever it returns an assignment, preserves
the multiset of customer ids of the assignment. -/
theorem mutate_flatten_perm :
    ∀ (routes : List (List Nat)) (ch : MutChoice) (m : List (List Nat)),
      mutate_solution routes ch = some m → m.flatten.Perm routes.flatten := by
  intro routes ch m h
  unfold mutate_solution at h
  by_cases hg : routes.isEmpty ∨ routes.all List.isEmpty
  · rw [if_pos hg] at h
    cases h
    exact List.Perm.refl _
  · rw [if_neg hg] at h
    cases ch with
    | swap rc i j =>
        dsimp only at h
        split at h
        · exact absurd h (by simp)
        · next hc =>
            split at h
            · next hlen =>
                cases h
                have hmem := getD_mod_mem _ rc hc
                rw [List.mem_filter] at hmem
                have hri : (((List.range routes.length).filter
                    (fun k => decide (1 < (routes.getD k []).length))).getD
                      (rc % ((List.range routes.length).filter
                        (fun k => decide
                          (1 < (routes.getD k []).length))).length) 0) <
                    routes.length := List.mem_range.1 hmem.1
                have hrl : 1 < (routes.getD _ []).length :=
                  of_decide_eq_true hmem.2
                apply set_route_flatten_perm _ _ _ hri
                exact listSwap_perm _ _ _
                  (Nat.mod_lt _ (lt_trans Nat.zero_lt_one hrl))
                  (Nat.mod_lt _ (lt_trans Nat.zero_lt_one hrl))
            · cases h
              exact List.Perm.refl _
    | relocate fc ti pi ip =>
        dsimp only at h
        split at h
        · next hlen =>
            split at h
            · exact absurd h (by simp)
            · next hc =>
                cases h
                have hmem := getD_mod_mem _ fc hc
                rw [List.mem_filter] at hmem
                have hfi : (((List.range routes.length).filter
                    (fun k => decide (¬(routes.getD k []).isEmpty))).getD
                      (fc % ((List.range routes.length).filter
                        (fun k => decide
                          (¬(routes.getD k []).isEmpty))).length) 0) <
                    routes.length := List.mem_range.1 hmem.1
                have hfr : ¬(routes.getD _ []).isEmpty :=
                  of_decide_eq_true hmem.2
                -- abbreviations
                set fi := (((List.range routes.length).filter
                    (fun k => decide (¬(routes.getD k []).isEmpty))).getD
                      (fc % ((List.range routes.length).filter
                        (fun k => decide
                          (¬(routes.getD k []).isEmpty))).length) 0)
                set f := routes.getD fi [] with hf
                have hflen : 0 < f.length := by
                  cases hfe : f with
                  | nil => rw [hfe] at hfr; exact absurd rfl hfr
                  | cons a t => simp
                have hp : pi % f.length < f.length := Nat.mod_lt _ hflen
                set p := pi % f.length
                set c := f.getD p 0 with hcdef
                set m1 := routes.set fi (f.eraseIdx p) with hm1
                have hti : ti % routes.length < routes.length :=
                  Nat.mod_lt _ (lt_trans Nat.zero_lt_one hlen)
                have hti1 : ti % routes.length < m1.length := by
                  rw [hm1, List.length_set]
                  exact hti
                set t := m1.getD (ti % routes.length) [] with ht
                have hins : ip % (t.length + 1) ≤ t.length :=
                  Nat.lt_succ_iff.1 (Nat.mod_lt _ (Nat.succ_pos _))
                -- step A : (m1.flatten ++ [c]).Perm routes.flatten
                have hfs1 := flatten_set_perm routes fi (f.eraseIdx p) hfi
                have hpe : f.Perm (c :: f.eraseIdx p) :=
                  perm_getD_cons_eraseIdx f p hp
                have hA1 : (m1.flatten ++ (c :: f.eraseIdx p)).Perm
                    (routes.flatten ++ f.eraseIdx p) :=
                  (List.Perm.append_left _ hpe.symm).trans hfs1
                have hA2 : m1.flatten ++ (c :: f.eraseIdx p) =
                    (m1.flatten ++ [c]) ++ f.eraseIdx p := by
                  rw [List.append_assoc]
                  rfl
                rw [hA2] at hA1
                have hA : (m1.flatten ++ [c]).Perm routes.flatten :=
                  (List.perm_append_right_iff _).1 hA1
                -- step B
                have hfs2 := flatten_set_perm m1 (ti % routes.length)
                  (t.insertIdx (ip % (t.length + 1)) c) hti1
                have hiperm := List.perm_insertIdx c t hins
                have hB1 : ((m1.set (ti % routes.length)
                    (t.insertIdx (ip % (t.length + 1)) c)).flatten ++ t).Perm
                    (m1.flatten ++ (c :: t)) :=
                  hfs2.trans (List.Perm.append_left _ hiperm)
                have hB2 : m1.flatten ++ (c :: t) =
                    (m1.flatten ++ [c]) ++ t := by
                  rw [List.append_assoc]
                  rfl
                rw [hB2] at hB1
                have hB3 : ((m1.set (ti % routes.length)
                    (t.insertIdx (ip % (t.length + 1)) c)).flatten ++ t).Perm
                    (routes.flatten ++ t) :=
                  hB1.trans (List.Perm.append_right _ hA)
                exact (List.perm_append_right_iff _).1 hB3
        · next hlen =>
            cases h
            exact List.Perm.refl _
    | twoOpt rc i j =>
        dsimp only at h
        split at h
        · exact absurd h (by simp)
        · next hc =>
            split at h
            · next hlen =>
                cases h
                have hmem := getD_mod_mem _ rc hc
                rw [List.mem_filter] at hmem
                have hri : (((List.range routes.length).filter
                    (fun k => decide (3 < (routes.getD k []).length))).getD
                      (rc % ((List.range routes.length).filter
                        (fun k => decide
                          (3 < (routes.getD k []).length))).length) 0) <
                    routes.length := List.mem_range.1 hmem.1
                apply set_route_flatten_perm _ _ _ hri
                exact reverseSegment_perm _ _ _
                  (le_trans (min_le_max) (Nat.le_succ _))
            · cases h
              exact List.Perm.refl _

/-- The used set returned by the duplicate-stripping copy is the input
used set followed by the customers of the copied routes. -/
theorem stripRoutes_used_eq :
    ∀ (rs : List (List Nat)) (used : List Nat),
      (stripRoutes used rs).2 = used ++ (stripRoutes used rs).1.flatten := by
  intro rs
  induction rs with
  | nil => intro used; simp [stripRoutes]
  | cons r rest ih =>
      intro used
      rw [stripRoutes]
      dsimp only
      split
      · rw [ih]
      · dsimp only
        rw [ih, List.flatten_cons, List.append_assoc]

/-- Duplicate stripping keeps the used set duplicate-free whenever the
incoming used set and each input route are. -/
theorem stripRoutes_nodup :
    ∀ (rs : List (List Nat)) (used : List Nat), used.Nodup →
      (∀ r ∈ rs, r.Nodup) → (stripRoutes used rs).2.Nodup := by
  intro rs
  induction rs with
  | nil => intro used hu _; simpa [stripRoutes] using hu
  | cons r rest ih =>
      intro used hu hr
      rw [stripRoutes]
      dsimp only
      split
      · exact ih used hu (fun q hq => hr q (List.mem_cons_of_mem _ hq))
      · dsimp only
        apply ih
        · apply List.Nodup.append hu
          · exact (hr r (List.mem_cons_self _ _)).filter _
          · intro x hxu hxn
            have := List.of_mem_filter hxn
            exact absurd hxu (by simpa using this)
        · exact fun q hq => hr q (List.mem_cons_of_mem _ hq)

/-- Each route of an assignment with duplicate-free flattening is
itself duplicate-free. -/
theorem nodup_routes_of_flatten_nodup :
    ∀ (l : List (List Nat)), l.flatten.Nodup → ∀ r ∈ l, r.Nodup := by
  intro l
  induction l with
  | nil => simp
  | cons h t ih =>
      intro hnd r hr
      rw [List.flatten_cons] at hnd
      rcases List.mem_cons.1 hr with rfl | hrt
      · exact hnd.of_append_left
      · exact ih hnd.of_append_right r hrt

/-- Crossover of two parents that both carry at least one customer:
the child contains each customer at most once and every id `1..N` at
least once. -/
theorem crossover_cover_nodup (s : Solver) (p1 p2 : List (List Nat))
    (h1 : p1.flatten.Nodup) (h2 : p2.flatten.Nodup)
    (hne1 : p1.flatten ≠ []) (hne2 : p2.flatten ≠ []) :
    (crossover_solutions s p1 p2).flatten.Nodup ∧
    ∀ c ∈ s.allIds, c ∈ (crossover_solutions s p1 p2).flatten := by
  unfold crossover_solutions
  rw [if_neg (by simp [List.isEmpty_iff, hne1]),
    if_neg (by simp [List.isEmpty_iff, hne2])]
  dsimp only
  set a := stripRoutes [] (p1.take (p1.length / 2)) with hadef
  set b := stripRoutes a.2 p2 with hbdef
  have ha2 : a.2 = a.1.flatten := by
    rw [hadef, stripRoutes_used_eq, List.nil_append]
  have hb2 : b.2 = (a.1 ++ b.1).flatten := by
    rw [hbdef, stripRoutes_used_eq, ← hbdef, ha2, List.flatten_append]
  have hroutes1 : ∀ r ∈ p1.take (p1.length / 2), r.Nodup :=
    fun r hr => nodup_routes_of_flatten_nodup p1 h1 r
      (List.mem_of_mem_take hr)
  have hroutes2 : ∀ r ∈ p2, r.Nodup :=
    nodup_routes_of_flatten_nodup p2 h2
  have hnd2 : b.2.Nodup := by
    rw [hbdef]
    exact stripRoutes_nodup p2 a.2
      (by rw [hadef]; exact stripRoutes_nodup _ [] List.nodup_nil hroutes1)
      hroutes2
  have hndchild : (a.1 ++ b.1).flatten.Nodup := by rw [← hb2]; exact hnd2
  have hmissnd : (s.allIds.filter (fun c => decide (¬ c ∈ b.2))).Nodup :=
    (List.nodup_range' _ _).filter _
  have hdisj : ∀ x ∈ (a.1 ++ b.1).flatten,
      x ∉ s.allIds.filter (fun c => decide (¬ c ∈ b.2)) := by
    intro x hx hxm
    have := List.of_mem_filter hxm
    rw [← hb2] at hx
    exact absurd hx (by simpa using this)
  have hcover0 : ∀ c ∈ s.allIds,
      c ∈ b.2 ∨ c ∈ s.allIds.filter (fun c => decide (¬ c ∈ b.2)) := by
    intro c hc
    by_cases hcb : c ∈ b.2
    · exact Or.inl hcb
    · exact Or.inr (List.mem_filter.2 ⟨hc, decide_eq_true hcb⟩)
  split
  · next hmiss =>
      have hmiss' : s.allIds.filter (fun c => decide (¬ c ∈ b.2)) = [] :=
        List.isEmpty_iff.1 hmiss
      refine ⟨hndchild, fun c hc => ?_⟩
      rcases hcover0 c hc with hcb | hcm
      · rw [← hb2]; exact hcb
      · rw [hmiss'] at hcm; exact absurd hcm (List.not_mem_nil c)
  · next hmiss =>
      split
      · next hcc =>
          have hb2nil : b.2 = [] := by rw [hb2, hcc]; rfl
          constructor
          · simpa using hmissnd
          · intro c hc
            rcases hcover0 c hc with hcb | hcm
            · rw [hb2nil] at hcb; exact absurd hcb (List.not_mem_nil c)
            · simpa using hcm
      · next r rs hcc =>
          have hflat : ((r ++ s.allIds.filter (fun c => decide (¬ c ∈ b.2)))
              :: rs).flatten =
              (r ++ s.allIds.filter (fun c => decide (¬ c ∈ b.2)))
                ++ rs.flatten := by
            rw [List.flatten_cons]
          have hchildflat : (a.1 ++ b.1).flatten = r ++ rs.flatten := by
            rw [hcc, List.flatten_cons]
          have hperm : (((r ++ s.allIds.filter
              (fun c => decide (¬ c ∈ b.2))) :: rs).flatten).Perm
              ((a.1 ++ b.1).flatten ++
                s.allIds.filter (fun c => decide (¬ c ∈ b.2))) := by
            rw [hflat, hchildflat, List.append_assoc, List.append_assoc]
            exact List.Perm.append_left r List.perm_append_comm
          constructor
          · have hnd : ((a.1 ++ b.1).flatten ++
                s.allIds.filter (fun c => decide (¬ c ∈ b.2))).Nodup :=
              List.Nodup.append hndchild hmissnd
                (fun x hx => hdisj x hx)
            exact hperm.nodup_iff.2 hnd
          · intro c hc
            apply (hperm.mem_iff).2
            rcases hcover0 c hc with hcb | hcm
            · rw [← hb2]
              exact List.mem_append_left _ hcb
            · exact List.mem_append_right _ hcm

/-- C4 amended: for parents in which no customer id appears more than
once and which each carry at least one customer, the crossover child
contains each customer id at most once and every id `1..N` at least
once; a parent carrying no customers makes `_crossover_solutions`
return the other parent unchanged (which may miss customers); and every
mutation kind preserves the multiset of customer ids of the assignment
it returns, so mutation never duplicates a customer. -/
theorem genetic_operators_invariants :
    (∀ (s : Solver) (p1 p2 : List (List Nat)),
        p1.flatten.Nodup → p2.flatten.Nodup →
        p1.flatten ≠ [] → p2.flatten ≠ [] →
        (crossover_solutions s p1 p2).flatten.Nodup ∧
        ∀ c ∈ s.allIds, c ∈ (crossover_solutions s p1 p2).flatten) ∧
    (∀ (s : Solver) (p1 p2 : List (List Nat)),
        p1.flatten = [] → crossover_solutions s p1 p2 = p2) ∧
    (∀ (routes : List (List Nat)) (ch : MutChoice) (m : List (List Nat)),
        mutate_solution routes ch = some m →
        m.flatten.Perm routes.flatten) := by
  refine ⟨crossover_cover_nodup, ?_, mutate_flatten_perm⟩
  intro s p1 p2 hp1
  unfold crossover_solutions
  rw [if_pos (by simp [List.isEmpty_iff, hp1])]

/-- Counterexample to C4 as stated: the duplicate-free parents `[]` and
`[[1]]` (with two customers `1..2` in scope) produce the child `[[1]]`,
which does not contain customer 2. -/
theorem crossover_misses_customer :
    ([] : List (List Nat)).flatten.Nodup ∧
    ([[1]] : List (List Nat)).flatten.Nodup ∧
    crossover_solutions sRepair [] [[1]] = [[1]] ∧
    2 ∈ sRepair.allIds ∧
    2 ∉ (crossover_solutions sRepair [] [[1]]).flatten := by
  decide

/-- Witness for the amended C4 at concrete inputs. -/
theorem genetic_operators_invariants_witness :
    (([[1]] : List (List Nat)).flatten.Nodup ∧
      ([[2], [1]] : List (List Nat)).flatten.Nodup ∧
      ([[1]] : List (List Nat)).flatten ≠ [] ∧
      ([[2], [1]] : List (List Nat)).flatten ≠ [] ∧
      ((crossover_solutions sRepair [[1]] [[2], [1]]).flatten.Nodup ∧
        ∀ c ∈ sRepair.allIds,
          c ∈ (crossover_solutions sRepair [[1]] [[2], [1]]).flatten)) ∧
    (mutate_solution [[1, 2]] (MutChoice.swap 0 0 1) = some [[2, 1]] ∧
      ([[2, 1]] : List (List Nat)).flatten.Perm
        ([[1, 2]] : List (List Nat)).flatten) := by
  refine ⟨⟨by decide, by decide, by decide, by decide, ?_⟩, by decide, ?_⟩
  · exact genetic_operators_invariants.1 sRepair [[1]] [[2], [1]]
      (by decide) (by decide) (by decide) (by decide)
  · exact genetic_operators_invariants.2.2 [[1, 2]]
      (MutChoice.swap 0 0 1) [[2, 1]] (by decide)

/-- A best-so-far fold producing `some p` either started from `some p`
or selected `p` at some element of the list. -/
theorem foldl_option_mem {β : Type} (step : Option β → Nat → Option β)
    (key : β → Nat)
    (hstep : ∀ acc x p, step acc x = some p → acc = some p ∨ key p = x) :
    ∀ (l : List Nat) (acc : Option β) (p : β),
      l.foldl step acc = some p → acc = some p ∨ key p ∈ l := by
  intro l
  induction l with
  | nil => intro acc p h; exact Or.inl h
  | cons x xs ih =>
      intro acc p h
      rcases ih (step acc x) p h with hx | hxs
      · rcases hstep acc x p hx with ha | hk
        · exact Or.inl ha
        · exact Or.inr (hk ▸ List.mem_cons_self x xs)
      · exact Or.inr (List.mem_cons_of_mem x hxs)

/-- The customer selected by the greedy scan is unvisited. -/
theorem findNearestFeasible_mem (s : Solver) (v : Vehicle)
    (route : List Nat) (pos : Nat) (unvisited : List Nat) (c : Nat)
    (h : findNearestFeasible s v route pos unvisited = some c) :
    c ∈ unvisited := by
  unfold findNearestFeasible at h
  have hstep : ∀ (acc : Option Nat) (x : Nat) (p : Nat),
      (if is_feasible_route s (route ++ [x]) v = true then
        match acc with
        | none => some x
        | some b => if s.dist pos x < s.dist pos b then some x else acc
      else acc) = some p → acc = some p ∨ p = x := by
    intro acc x p hs
    split at hs
    · cases acc with
      | none =>
          right
          cases hs
          rfl
      | some b =>
          dsimp only at hs
          split at hs
          · right
            cases hs
            rfl
          · exact Or.inl hs
    · exact Or.inl hs
  rcases foldl_option_mem _ (fun p => p) hstep unvisited none c h with hn | hm
  · exact absurd hn (by simp)
  · exact hm

/-- The insertion position selected by the repair scan is a valid
insertion index of the route. -/
theorem bestInsertion_pos_le (s : Solver) (v : Vehicle)
    (route : List Nat) (c : Nat) (p : Nat × ℚ)
    (h : bestInsertion s v route c = some p) : p.1 ≤ route.length := by
  unfold bestInsertion at h
  have hstep : ∀ (acc : Option (Nat × ℚ)) (x : Nat) (q : Nat × ℚ),
      (if is_feasible_route s (route.insertIdx x c) v = true then
        match acc with
        | none => some (x, calculate_route_cost s (route.insertIdx x c) v -
            calculate_route_cost s route v)
        | some b => if calculate_route_cost s (route.insertIdx x c) v -
              calculate_route_cost s route v < b.2 then
            some (x, calculate_route_cost s (route.insertIdx x c) v -
              calculate_route_cost s route v)
          else acc
      else acc) = some q → acc = some q ∨ q.1 = x := by
    intro acc x q hs
    split at hs
    · cases acc with
      | none =>
          right
          cases hs
          rfl
      | some b =>
          dsimp only at hs
          split at hs
          · right
            cases hs
            rfl
          · exact Or.inl hs
    · exact Or.inl hs
  rcases foldl_option_mem _ Prod.fst hstep (List.range (route.length + 1))
      none p h with hn | hm
  · exact absurd hn (by simp)
  · exact Nat.lt_succ_iff.1 (List.mem_range.1 hm)

/-- The greedy extension of a route relocates customers from the
unvisited pool into the route: the concatenation of the resulting route
and pool is a permutation of the input concatenation. -/
theorem greedyExtend_perm (s : Solver) (v : Vehicle) :
    ∀ (fuel : Nat) (route : List Nat) (pos : Nat) (unvisited : List Nat),
      ((greedyExtend s v fuel route pos unvisited).1 ++
        (greedyExtend s v fuel route pos unvisited).2).Perm
        (route ++ unvisited) := by
  intro fuel
  induction fuel with
  | zero => intro route pos unvisited; exact List.Perm.refl _
  | succ fuel ih =>
      intro route pos unvisited
      rw [greedyExtend]
      cases hf : findNearestFeasible s v route pos unvisited with
      | none => exact List.Perm.refl _
      | some c =>
          have hc : c ∈ unvisited := findNearestFeasible_mem _ _ _ _ _ _ hf
          have h1 := ih (route ++ [c]) c (unvisited.erase c)
          have h2 : ((route ++ [c]) ++ unvisited.erase c) =
              route ++ (c :: unvisited.erase c) := by
            rw [List.append_assoc]
            rfl
          rw [h2] at h1
          exact h1.trans
            (List.Perm.append_left route (List.perm_cons_erase hc).symm)

/-- The greedy phase distributes the unvisited pool over non-empty
routes without loss or duplication. -/
theorem greedyPhase_spec (s : Solver) :
    ∀ (vs : List Vehicle) (unvisited : List Nat),
      ((greedyPhase s vs unvisited).1.flatten ++
        (greedyPhase s vs unvisited).2).Perm unvisited ∧
      (∀ r ∈ (greedyPhase s vs unvisited).1, r ≠ []) := by
  intro vs
  induction vs with
  | nil =>
      intro unvisited
      constructor
      · exact List.Perm.refl _
      · simp [greedyPhase]
  | cons v vs ih =>
      intro unvisited
      rw [greedyPhase]
      split
      · constructor
        · exact List.Perm.refl _
        · simp
      · next hne =>
          dsimp only
          set p := greedyExtend s v unvisited.length [] 0 unvisited with hp
          have hext : (p.1 ++ p.2).Perm unvisited := by
            have := greedyExtend_perm s v unvisited.length [] 0 unvisited
            simpa using this
          obtain ⟨hq1, hq2⟩ := ih p.2
          by_cases hpe : p.1.isEmpty
          · have hpe' : p.1 = [] := List.isEmpty_iff.1 hpe
            rw [if_pos hpe]
            constructor
            · refine hq1.trans ?_
              have : p.2 = p.1 ++ p.2 := by rw [hpe']; rfl
              rw [this] at hq1 ⊢
              exact hext
            · exact hq2
          · rw [if_neg hpe]
            constructor
            · rw [List.flatten_cons, List.append_assoc]
              exact ((List.Perm.append_left p.1 hq1).trans hext)
            · intro r hr
              rcases List.mem_cons.1 hr with rfl | hrq
              · exact List.isEmpty_eq_false.1 (Bool.not_eq_true _ ▸
                  (by simpa using hpe))
              · exact hq2 r hrq

/-- A successful repair insertion adds exactly the straggler to the
routes and keeps every route non-empty. -/
theorem tryInsertGo_spec (s : Solver) (c : Nat) :
    ∀ (l : List (List Nat)) (i : Nat) (l' : List (List Nat)),
      tryInsertGo s c l i = some l' →
      l'.flatten.Perm (c :: l.flatten) ∧
      ((∀ r ∈ l, r ≠ []) → ∀ r ∈ l', r ≠ []) := by
  intro l
  induction l with
  | nil => intro i l' h; exact absurd h (by simp [tryInsertGo])
  | cons route rest ih =>
      intro i l' h
      rw [tryInsertGo] at h
      have hmap : ∀ (hm : (tryInsertGo s c rest (i + 1)).map
          (route :: ·) = some l'),
          l'.flatten.Perm (c :: (route :: rest).flatten) ∧
          ((∀ r ∈ route :: rest, r ≠ []) → ∀ r ∈ l', r ≠ []) := by
        intro hm
        rcases Option.map_eq_some'.1 hm with ⟨l'', hl'', rfl⟩
        obtain ⟨hperm, hnon⟩ := ih (i + 1) l'' hl''
        constructor
        · rw [List.flatten_cons]
          have h1 : (route ++ l''.flatten).Perm
              (route ++ (c :: rest.flatten)) :=
            List.Perm.append_left route hperm
          rw [List.flatten_cons]
          exact h1.trans List.perm_middle
        · intro hall r hr
          rcases List.mem_cons.1 hr with rfl | hrq
          · exact hall r (List.mem_cons_self _ _)
          · exact hnon (fun q hq => hall q (List.mem_cons_of_mem _ hq)) r hrq
      split at h
      · cases hbi : bestInsertion s (s.vehicles.getD i default) route c with
        | some p =>
            rw [hbi] at h
            cases h
            have hple : p.1 ≤ route.length :=
              bestInsertion_pos_le s _ route c p hbi
            constructor
            · rw [List.flatten_cons, List.flatten_cons]
              have h1 : (List.insertIdx p.1 c route).Perm (c :: route) :=
                List.perm_insertIdx c route hple
              exact (List.Perm.append_right rest.flatten h1).trans
                (by exact List.Perm.refl _)
            · intro hall r hr
              rcases List.mem_cons.1 hr with rfl | hrq
              · intro hnil
                have := @List.length_insertIdx Nat c p.1 route hple
                rw [hnil] at this
                simp at this
              · exact hall r (List.mem_cons_of_mem _ hrq)
        | none =>
            rw [hbi] at h
            exact hmap h
      · exact hmap h

/-- The first repair loop moves the insertable stragglers into routes
and returns the rest, preserving the customer multiset and route
non-emptiness. -/
theorem repairInsert_spec (s : Solver) :
    ∀ (cs : List Nat) (routes : List (List Nat)),
      ((repairInsert s routes cs).1.flatten ++
        (repairInsert s routes cs).2).Perm (routes.flatten ++ cs) ∧
      ((∀ r ∈ routes, r ≠ []) →
        ∀ r ∈ (repairInsert s routes cs).1, r ≠ []) := by
  intro cs
  induction cs with
  | nil =>
      intro routes
      constructor
      · simp [repairInsert]
      · intro hall
        simpa [repairInsert] using hall
  | cons c cs ih =>
      intro routes
      rw [repairInsert]
      cases hins : tryInsert s routes c with
      | some routes' =>
          obtain ⟨hperm, hnon⟩ := tryInsertGo_spec s c routes 0 routes' hins
          obtain ⟨ihp, ihn⟩ := ih routes'
          constructor
          · refine ihp.trans ?_
            have h1 : (routes'.flatten ++ cs).Perm
                ((c :: routes.flatten) ++ cs) :=
              List.Perm.append_right cs hperm
            refine h1.trans ?_
            have hmid : (routes.flatten ++ (c :: cs)).Perm
                (c :: (routes.flatten ++ cs)) := List.perm_middle
            exact hmid.symm
          · intro hall
            exact ihn (hnon hall)
      | none =>
          obtain ⟨ihp, ihn⟩ := ih routes
          constructor
          · dsimp only
            have h1 : ((repairInsert s routes cs).1.flatten ++
                (c :: (repairInsert s routes cs).2)).Perm
                (c :: ((repairInsert s routes cs).1.flatten ++
                  (repairInsert s routes cs).2)) := List.perm_middle
            refine h1.trans ?_
            refine (ihp.cons c).trans ?_
            have hmid : (routes.flatten ++ (c :: cs)).Perm
                (c :: (routes.flatten ++ cs)) := List.perm_middle
            exact hmid.symm
          · intro hall
            exact ihn hall

/-- An assignment of non-empty routes has at least as many customers
as routes. -/
theorem length_le_flatten_length :
    ∀ (l : List (List Nat)), (∀ r ∈ l, r ≠ []) →
      l.length ≤ l.flatten.length := by
  intro l
  induction l with
  | nil => intro _; simp
  | cons r rest ih =>
      intro hall
      rw [List.flatten_cons, List.length_cons, List.length_append]
      have h1 : 1 ≤ r.length := by
        have := hall r (List.mem_cons_self _ _)
        cases hr : r with
        | nil => exact absurd hr this
        | cons a t => simp
      have h2 := ih (fun q hq => hall q (List.mem_cons_of_mem _ hq))
      omega

/-- The second repair loop opens one new single-customer route per
remaining straggler and never hits its length guard, so no customer is
dropped. -/
theorem repairNewRoutes_spec (s : Solver) :
    ∀ (rem : List Nat) (routes : List (List Nat)),
      (∀ r ∈ routes, r ≠ []) →
      (routes.flatten ++ rem).Perm s.allIds →
      (repairNewRoutes s routes rem).flatten.Perm s.allIds := by
  intro rem
  induction rem with
  | nil =>
      intro routes _ hperm
      rw [repairNewRoutes]
      simpa using hperm
  | cons c cs ih =>
      intro routes hall hperm
      have hlen : routes.length < s.N := by
        have h1 := length_le_flatten_length routes hall
        have h2 := hperm.length_eq
        rw [List.length_append, List.length_cons] at h2
        have h3 : s.allIds.length = s.N := by
          rw [Solver.allIds, List.length_range']
        omega
      rw [repairNewRoutes, if_pos hlen]
      apply ih
      · intro r hr
        rcases List.mem_append.1 hr with hrl | hrr
        · exact hall r hrl
        · rw [List.mem_singleton.1 hrr]
          simp
      · have he : (routes ++ [[c]]).flatten ++ cs =
            routes.flatten ++ (c :: cs) := by
          rw [List.flatten_append]
          simp [List.append_assoc]
        rw [he]
        exact hperm

/-- C7 amended headline invariant: the constructive heuristic's result
covers every customer id `1..N` exactly once — the repair pass inserts
each straggler at the first feasible minimum-cost-increase position
among routes shorter than 10 stops, opens a new single-customer route
when none admits it (regardless of the vehicle count), and never drops
a customer. -/
theorem generate_initial_solution_perm (s : Solver) :
    (generate_initial_solution s).flatten.Perm s.allIds := by
  rw [generate_initial_solution]
  dsimp only
  obtain ⟨hg1, hg2⟩ := greedyPhase_spec s s.vehicles s.allIds
  by_cases hemp : (greedyPhase s s.vehicles s.allIds).2.isEmpty
  · rw [if_pos hemp]
    have he : (greedyPhase s s.vehicles s.allIds).2 = [] :=
      List.isEmpty_iff.1 hemp
    rw [he, List.append_nil] at hg1
    exact hg1
  · rw [if_neg hemp]
    obtain ⟨hr1, hr2⟩ := repairInsert_spec s
      (greedyPhase s s.vehicles s.allIds).2
      (greedyPhase s s.vehicles s.allIds).1
    exact repairNewRoutes_spec s _ _ (hr2 hg2) (hr1.trans hg1)

/-- Counterexample to C7 as stated: in `sRepair` the single vehicle is
exhausted and customer 2 cannot be feasibly inserted anywhere, yet the
repair pass opens a new route `[2]` beyond the vehicle count instead of
forcing customer 2 into the tail of the first route (`[[1, 2]]`). -/
theorem repair_opens_new_route :
    generate_initial_solution sRepair = [[1], [2]] ∧
    sRepair.vehicles.length = 1 ∧
    generate_initial_solution sRepair ≠ [[1, 2]] := by
  have hf1 : is_feasible_route sRepair [1] ⟨10, 100, 1⟩ = true := by
    norm_num [is_feasible_route, feasGo, Solver.customerAt, sRepair, max_def]
  have hf2 : is_feasible_route sRepair [2] ⟨10, 100, 1⟩ = false := by
    norm_num [is_feasible_route, feasGo, Solver.customerAt, sRepair, max_def]
  have hf12 : is_feasible_route sRepair [1, 2] ⟨10, 100, 1⟩ = false := by
    norm_num [is_feasible_route, feasGo, Solver.customerAt, sRepair, max_def]
  have hf21 : is_feasible_route sRepair [2, 1] ⟨10, 100, 1⟩ = false := by
    norm_num [is_feasible_route, feasGo, Solver.customerAt, sRepair, max_def]
  have hfind1 : findNearestFeasible sRepair ⟨10, 100, 1⟩ [] 0 [1, 2] =
      some 1 := by
    simp [findNearestFeasible, hf1, hf2]
  have hfind2 : findNearestFeasible sRepair ⟨10, 100, 1⟩ [1] 1 [2] =
      none := by
    simp [findNearestFeasible, hf12]
  have hge : greedyExtend sRepair ⟨10, 100, 1⟩ 2 [] 0 [1, 2] =
      ([1], [2]) := by
    rw [greedyExtend, hfind1]
    simp only [List.nil_append]
    have he : ([1, 2] : List Nat).erase 1 = [2] := by decide
    rw [he, greedyExtend]
    rw [hfind2]
  have hgp : greedyPhase sRepair sRepair.vehicles [1, 2] = ([[1]], [2]) := by
    have hv2 : sRepair.vehicles = [⟨10, 100, 1⟩] := rfl
    rw [hv2, greedyPhase]
    simp [hge, greedyPhase]
  have hbi : bestInsertion sRepair ⟨10, 100, 1⟩ [1] 2 = none := by
    have hi0 : List.insertIdx 0 2 [1] = [2, 1] := rfl
    have hi1 : List.insertIdx 1 2 [1] = [1, 2] := rfl
    simp [bestInsertion, List.range_succ, hi0, hi1, hf21, hf12]
  have hti : tryInsert sRepair [[1]] 2 = none := by
    have hbi' : bestInsertion sRepair (sRepair.vehicles.getD 0 default) [1] 2
        = none := hbi
    simp only [tryInsert, tryInsertGo, hbi']
    simp
  have hri : repairInsert sRepair [[1]] [2] = ([[1]], [2]) := by
    simp [repairInsert, hti]
  have hallIds : sRepair.allIds = [1, 2] := rfl
  have hgis : generate_initial_solution sRepair = [[1], [2]] := by
    rw [generate_initial_solution, hallIds, hgp]
    dsimp only
    simp only [List.isEmpty_cons, Bool.false_eq_true, if_false]
    rw [hri]
    dsimp only
    rw [repairNewRoutes, if_pos (by decide)]
    rfl
  refine ⟨hgis, rfl, ?_⟩
  rw [hgis]
  simp

end EVR
